import Mathlib

/-!
Verification of the core of `bookeditor.py` (minecraft-bookeditor).

Strings are modelled as `List Char`.  The page codec (`exportbook`'s join and
`importbook`'s `read()[:-1].rstrip(sep).split(sep)`), the inventory data model
(NBT items with a numeric or namespaced identifier, a slot and an optional
book tag), and the operations `get_bookpages`, `new_booktag`, `new_book`,
`free_slots`, `exportbook` and `importbook` are translated from the source.
Python mutation of the inventory is made explicit by returning the updated
inventory; the world-save side effect of `importbook` is modelled by a
counter of invocations of the external persistence operation.
-/

namespace BookEditor

/-! ### PageCodec: the separator framing of `exportbook`/`importbook` -/

/-- `"\n%s\n" % separator`: the framed separator used by both directions. -/
def sepLine (separator : List Char) : List Char :=
  '\n' :: separator ++ ['\n']

/-- Python `"<sep>".join(pages)`. -/
def pyJoin (sep : List Char) : List (List Char) → List Char
  | [] => []
  | [p] => p
  | p :: q :: ps => p ++ sep ++ pyJoin sep (q :: ps)

/-- Prepend a character to the first piece of a split result. -/
def consHead (c : Char) : List (List Char) → List (List Char)
  | [] => [[c]]
  | p :: ps => (c :: p) :: ps

/-- Fueled worker for Python `s.split(sep)` (`sep` nonempty): scan left to
right, cutting at each leftmost occurrence of `sep`.  The fuel is an upper
bound on the length of `s`, so the recursion is structural. -/
def pySplitGo (sep : List Char) : Nat → List Char → List (List Char)
  | _, [] => [[]]
  | 0, s => [s]
  | fuel + 1, c :: rest =>
    if sep ≠ [] ∧ List.isPrefixOf sep (c :: rest) then
      [] :: pySplitGo sep fuel (rest.drop (sep.length - 1))
    else
      consHead c (pySplitGo sep fuel rest)

/-- Python `s.split(sep)` for a nonempty separator string. -/
def pySplit (sep s : List Char) : List (List Char) :=
  pySplitGo sep s.length s

/-- Python `s.rstrip(chars)`: remove the longest trailing run of characters
that belong to the character SET of `chars` (Python treats the argument of
`rstrip` as a set of characters, not as a string to remove). -/
def pyRstrip (chars s : List Char) : List Char :=
  (s.reverse.dropWhile (fun c => decide (c ∈ chars))).reverse

/-- `exportbook` line 277: `("\n%s\n" % separator).join(pages) + "\n"`. -/
def exportPages (separator : List Char) (pages : List (List Char)) : List Char :=
  pyJoin (sepLine separator) pages ++ ['\n']

/-- `importbook` line 288: `fd.read()[:-1].rstrip(sep).split(sep)` with
`sep = "\n%s\n" % separator`. -/
def importPages (separator text : List Char) : List (List Char) :=
  pySplit (sepLine separator) (pyRstrip (sepLine separator) text.dropLast)

/-! ### Data model: items, tags, inventory -/

/-- The `id` NBT value of an item: legacy `TAG_Short` or namespaced
`TAG_String`. -/
inductive ItemId where
  | short (n : Int)
  | str (s : List Char)
  deriving DecidableEq

/-- An inventory item.  The book tag is modelled by its `pages` value, a list
of page strings; `none` models the absence of a `tag` key. -/
structure Item where
  id : ItemId
  damage : Int
  count : Int
  slot : Int
  tag : Option (List (List Char))
  deriving DecidableEq

/-- The namespaced identifier `'minecraft:writable_book'`. -/
def bookIdStr : List Char := "minecraft:writable_book".toList

/-- `item["id"].value in (386, 'minecraft:writable_book')`: a numeric id
matches `386` and a string id matches the namespaced constant. -/
def isBook (it : Item) : Bool :=
  match it.id with
  | ItemId.short n => n == 386
  | ItemId.str s => s == bookIdStr

/-- Index of the first matching book item (the `for`/`break` loop of
`get_bookpages`). -/
def findBook : List Item → Option Nat
  | [] => none
  | it :: rest => if isBook it then some 0 else (findBook rest).map (· + 1)

/-- Replace the `i`-th element, leaving everything else unchanged. -/
def modifyAt {α : Type} : Nat → (α → α) → List α → List α
  | _, _, [] => []
  | 0, f, x :: rest => f x :: rest
  | i + 1, f, x :: rest => x :: modifyAt i f rest

/-- `new_booktag()`: a `pages` list holding a single empty string. -/
def new_booktag : List (List Char) := [[]]

/-- `book.setdefault("tag", new_booktag())`. -/
def tagDefault (it : Item) : Item :=
  { it with tag := some (it.tag.getD new_booktag) }

/-- `get_bookpages(inventory)`: find the first book, synthesize its default
tag if absent (a mutation of the inventory), and return the updated
inventory together with the book's index; raise `LookupError` otherwise. -/
def get_bookpages (inv : List Item) : Except String (List Item × Nat) :=
  match findBook inv with
  | none => Except.error "No book found in inventory"
  | some i => Except.ok (modifyAt i tagDefault inv, i)

/-- The pages of the item at index `i` (the `book["tag"]["pages"]` access;
the defaults are unreachable after a successful lookup). -/
def pagesAt (inv : List Item) (i : Nat) : List (List Char) :=
  (inv[i]?.bind Item.tag).getD []

/-- The `tag` value of the item at index `i`. -/
def tagAt (inv : List Item) (i : Nat) : Option (List (List Char)) :=
  inv[i]?.bind Item.tag

/-! ### SlotAllocator -/

/-- `range(36)` as slot values. -/
def allSlots : List Int := (List.range 36).map Int.ofNat

/-- One step of the loop of `free_slots`: `if slot in slots:
slots.remove(slot)`. -/
def eraseSlot (slots : List Int) (it : Item) : List Int :=
  if it.slot ∈ slots then slots.erase it.slot else slots

/-- `free_slots(inventory)`: shortcut to `[]` for a full (40-item) inventory,
else remove every occupied slot value from `range(36)`. -/
def free_slots (inv : List Item) : List Int :=
  if inv.length = 40 then [] else inv.foldl eraseSlot allSlots

/-! ### BookFactory -/

/-- The fresh book compound built by `new_book` (identifier encoding chosen
from the world-version capability flag). -/
def mkBook (worldNew : Bool) (slot : Int) : Item :=
  { id := if worldNew then ItemId.str bookIdStr else ItemId.short 386
    damage := 0
    count := 1
    slot := slot
    tag := some new_booktag }

/-- `inventory.append(book)` when an inventory was supplied; the book is
returned in either case. -/
def pushBook (book : Item) (inv : Option (List Item)) :
    Option (List Item) × Except String Item :=
  (inv.map (fun l => l ++ [book]), Except.ok book)

/-- `new_book(world, inventory, slot)`.  The first component is the
(possibly updated) inventory; on failure the inventory is returned as it
was, since the Python exception is raised before any mutation. -/
def new_book (worldNew : Bool) (inv : Option (List Item)) (slot : Option Int) :
    Option (List Item) × Except String Item :=
  match slot, inv with
  | some s, _ => pushBook (mkBook worldNew s) inv
  | none, none => pushBook (mkBook worldNew 0) none
  | none, some inventory =>
    match free_slots inventory with
    | [] => (some inventory,
        Except.error "No empty slot in inventory to create a new book!")
    | s :: _ => pushBook (mkBook worldNew s) (some inventory)

/-! ### BookEditOrchestrator -/

/-- `exportbook` after the world and inventory have been acquired: locate
the book (synthesizing its default tag if absent) and produce the framed
text blob.  The returned inventory records any mutation done by the
lookup. -/
def exportbook (separator : List Char) (inv : List Item) :
    Except String (List Item × List Char) :=
  match get_bookpages inv with
  | Except.error e => Except.error e
  | Except.ok (inv1, i) =>
      Except.ok (inv1, exportPages separator (pagesAt inv1 i))

/-- `del bookpages[:]` (unless appending) followed by appending every
imported page. -/
def setPages (append : Bool) (pages : List (List Char)) (it : Item) : Item :=
  { it with tag := some ((if append then it.tag.getD [] else []) ++ pages) }

/-- `importbook` after the text and inventory have been acquired: parse the
pages, locate or (when `create`) build the book, rewrite its pages, and
invoke the external save operation exactly when `save` is set.  The `Nat`
component counts the invocations of `world.saveInPlace()`. -/
def importbook (separator text : List Char)
    (append create save worldNew : Bool) (inv : List Item) :
    Except String (List Item × Nat) :=
  let pages := importPages separator text
  match get_bookpages inv with
  | Except.ok (inv1, i) =>
      Except.ok (modifyAt i (setPages append pages) inv1,
        if save then 1 else 0)
  | Except.error e =>
      if create then
        match new_book worldNew (some inv) none with
        | (invOpt, Except.ok _) =>
            Except.ok (modifyAt inv.length (setPages append pages)
              (invOpt.getD inv), if save then 1 else 0)
        | (_, Except.error e2) => Except.error e2
      else Except.error e

/-! ### Definitions taken from the specification's words (for comparison) -/

/-- Drop one leading occurrence of `d`, if present. -/
def dropOneIfPre (d s : List Char) : List Char :=
  if List.isPrefixOf d s then s.drop d.length else s

/-- Drop one trailing occurrence of `d`, if present. -/
def dropOneIfSuf (d s : List Char) : List Char :=
  if List.isSuffixOf d s then s.take (s.length - d.length) else s

/-- Modelled from the spec's words, import direction as literally stated:
drop exactly the final character, strip any leftover leading or trailing
occurrence of the separator-with-newlines framing string, then split on the
framing string. -/
def importPagesLit (separator text : List Char) : List (List Char) :=
  pySplit (sepLine separator)
    (dropOneIfSuf (sepLine separator)
      (dropOneIfPre (sepLine separator) text.dropLast))

/-- The amended import description: after dropping the final character,
remove the longest trailing run of characters drawn from the character set
of the framing string (no leading strip).  Written as an independent
recursion, to be compared with the code's `rstrip`. -/
def stripTrailRun (chars : List Char) : List Char → List Char
  | [] => []
  | c :: rest =>
    if stripTrailRun chars rest = [] ∧ c ∈ chars then []
    else c :: stripTrailRun chars rest

/-- The amended import contract: split after trailing-run removal. -/
def importPagesAmended (separator text : List Char) : List (List Char) :=
  pySplit (sepLine separator) (stripTrailRun (sepLine separator) text.dropLast)

/-- Modelled from the spec's words: the ascending list of unused slot
indices in the closed range [0, 35]. -/
def spec_free_slots (inv : List Item) : List Int :=
  allSlots.filter (fun s => inv.all (fun it => it.slot != s))

/-! ### Concrete sample data -/

/-- A book with a tag holding one page `"hi"`. -/
def bTagged : Item :=
  { id := ItemId.short 386, damage := 0, count := 1, slot := 0,
    tag := some [['h', 'i']] }

/-- A never-written book: no tag at all. -/
def bTagless : Item :=
  { id := ItemId.short 386, damage := 0, count := 1, slot := 0,
    tag := none }

/-- The tagless book after the lookup's default-tag synthesis. -/
def bDefaulted : Item :=
  { id := ItemId.short 386, damage := 0, count := 1, slot := 0,
    tag := some [[]] }

/-- A non-book item. -/
def bOther : Item :=
  { id := ItemId.short 1, damage := 0, count := 1, slot := 0, tag := none }

/-- A book carrying the namespaced string identifier. -/
def bNamespaced : Item :=
  { id := ItemId.str bookIdStr, damage := 0, count := 1, slot := 1,
    tag := some [['h', 'i']] }

/-- Non-book items occupying exactly the slots `0..35`. -/
def inv36 : List Item :=
  (List.range 36).map (fun k =>
    { id := ItemId.short 1, damage := 0, count := 1, slot := Int.ofNat k,
      tag := none })

/-- Forty items all carrying slot value `0`. -/
def inv40same : List Item := List.replicate 40 bOther

/-- Non-book items occupying exactly the slots `0`, `1` and `2`. -/
def inv3 : List Item :=
  [{ id := ItemId.short 1, damage := 0, count := 1, slot := 0, tag := none },
   { id := ItemId.short 1, damage := 0, count := 1, slot := 1, tag := none },
   { id := ItemId.short 1, damage := 0, count := 1, slot := 2, tag := none }]

/-! ### Lemmas about the split worker -/

theorem consHead_cons (c : Char) (p : List Char) (ps : List (List Char)) :
    consHead c (p :: ps) = (c :: p) :: ps := rfl

theorem pySplitGo_nil (sep : List Char) (fuel : Nat) :
    pySplitGo sep fuel [] = [[]] := by
  cases fuel <;> rfl

theorem pySplitGo_cons (sep : List Char) (fuel : Nat) (c : Char)
    (rest : List Char) :
    pySplitGo sep (fuel + 1) (c :: rest) =
      if sep ≠ [] ∧ List.isPrefixOf sep (c :: rest) then
        [] :: pySplitGo sep fuel (rest.drop (sep.length - 1))
      else consHead c (pySplitGo sep fuel rest) := rfl

theorem pySplitGo_fuel (sep : List Char) :
    ∀ fuel₁ fuel₂ s, s.length ≤ fuel₁ → s.length ≤ fuel₂ →
      pySplitGo sep fuel₁ s = pySplitGo sep fuel₂ s := by
  intro fuel₁
  induction fuel₁ with
  | zero =>
    intro fuel₂ s hs _
    have h : s = [] := List.length_eq_zero.mp (Nat.le_zero.mp hs)
    subst h
    rw [pySplitGo_nil, pySplitGo_nil]
  | succ f ih =>
    intro fuel₂ s h1 h2
    cases s with
    | nil => rw [pySplitGo_nil, pySplitGo_nil]
    | cons c rest =>
      cases fuel₂ with
      | zero => simp at h2
      | succ g =>
        have hl1 : rest.length + 1 ≤ f + 1 := by simpa using h1
        have hl2 : rest.length + 1 ≤ g + 1 := by simpa using h2
        rw [pySplitGo_cons, pySplitGo_cons]
        by_cases hc : sep ≠ [] ∧ List.isPrefixOf sep (c :: rest)
        · rw [if_pos hc, if_pos hc,
            ih g (rest.drop (sep.length - 1))
              (by rw [List.length_drop]; omega)
              (by rw [List.length_drop]; omega)]
        · rw [if_neg hc, if_neg hc, ih g rest (by omega) (by omega)]

theorem pySplitGo_of_no_occ (sep : List Char) :
    ∀ fuel s, s.length ≤ fuel → ¬ sep <:+: s →
      pySplitGo sep fuel s = [s] := by
  intro fuel
  induction fuel with
  | zero =>
    intro s hs _
    have h : s = [] := List.length_eq_zero.mp (Nat.le_zero.mp hs)
    subst h
    rw [pySplitGo_nil]
  | succ f ih =>
    intro s hs hocc
    cases s with
    | nil => rw [pySplitGo_nil]
    | cons c rest =>
      rw [pySplitGo_cons]
      have hc : ¬ (sep ≠ [] ∧ List.isPrefixOf sep (c :: rest)) := by
        rintro ⟨_, hpre⟩
        have h1 : sep <+: c :: rest := List.isPrefixOf_iff_prefix.mp hpre
        have h2 : sep <:+: c :: rest := List.IsPrefix.isInfix h1
        exact hocc h2
      rw [if_neg hc]
      have hrest : ¬ sep <:+: rest := by
        intro h
        have h2 : sep <:+: c :: rest := List.infix_cons h
        exact hocc h2
      have hlen : rest.length ≤ f := by simp at hs; omega
      rw [ih rest hlen hrest]
      rfl

theorem pySplitGo_append (sep : List Char) (hsep : sep ≠ []) (z : List Char) :
    ∀ p fuel, (p ++ sep ++ z).length ≤ fuel →
      (∀ t, t ≠ [] → t <:+ p → ¬ sep <+: t ++ sep ++ z) →
      pySplitGo sep fuel (p ++ sep ++ z) = p :: pySplit sep z := by
  intro p
  induction p with
  | nil =>
    intro fuel hlen hjunc
    obtain ⟨a, sep', rfl⟩ := List.exists_cons_of_ne_nil hsep
    cases fuel with
    | zero => simp at hlen
    | succ f =>
      have hshape : ([] : List Char) ++ (a :: sep') ++ z
          = a :: (sep' ++ z) := by simp
      rw [hshape, pySplitGo_cons]
      have hc : (a :: sep') ≠ [] ∧
          List.isPrefixOf (a :: sep') (a :: (sep' ++ z)) := by
        refine ⟨List.cons_ne_nil a sep', ?_⟩
        exact List.isPrefixOf_iff_prefix.mpr (by simp)
      rw [if_pos hc]
      have hdrop : (sep' ++ z).drop ((a :: sep').length - 1) = z := by
        simp [List.drop_left]
      rw [hdrop]
      have hzlen : z.length ≤ f := by simp at hlen; omega
      rw [pySplitGo_fuel (a :: sep') f z.length z hzlen (le_refl _)]
      rfl
  | cons c p' ih =>
    intro fuel hlen hjunc
    cases fuel with
    | zero => simp at hlen
    | succ f =>
      have hshape : (c :: p') ++ sep ++ z = c :: (p' ++ sep ++ z) := by simp
      rw [hshape, pySplitGo_cons]
      have hc : ¬ (sep ≠ [] ∧ List.isPrefixOf sep (c :: (p' ++ sep ++ z))) := by
        rintro ⟨_, hpre⟩
        have h1 : sep <+: (c :: p') ++ sep ++ z := by
          have := List.isPrefixOf_iff_prefix.mp hpre
          simpa using this
        exact hjunc (c :: p') (List.cons_ne_nil c p') (List.suffix_refl _) h1
      rw [if_neg hc]
      have hjunc' : ∀ t, t ≠ [] → t <:+ p' → ¬ sep <+: t ++ sep ++ z :=
        fun t ht hts => hjunc t ht (hts.trans (List.suffix_cons c p'))
      have hlen' : (p' ++ sep ++ z).length ≤ f := by simp at hlen ⊢; omega
      rw [ih f hlen' hjunc']
      rfl

/-! ### The framed separator has only the trivial border -/

theorem sepLine_ne_nil (S : List Char) : sepLine S ≠ [] := by
  simp [sepLine]

theorem sepLine_contains (S : List Char) : S <:+: sepLine S :=
  ⟨['\n'], ['\n'], by simp [sepLine]⟩

theorem sepLine_border (S : List Char) (hnl : '\n' ∉ S) (u : List Char)
    (hpre : u <+: sepLine S) (hsuf : u <:+ sepLine S) (hne : u ≠ [])
    (hlt : u.length < (sepLine S).length) : u = ['\n'] := by
  obtain ⟨c, u', rfl⟩ := List.exists_cons_of_ne_nil hne
  rw [sepLine] at hpre
  have hcu := List.cons_prefix_cons.mp hpre
  obtain ⟨rfl, hu'⟩ := hcu
  by_cases h0 : u' = []
  · subst h0; rfl
  · exfalso
    obtain ⟨e, u'', rfl⟩ := List.exists_cons_of_ne_nil h0
    obtain ⟨v, hv⟩ := hsuf
    have hvne : v ≠ [] := by
      intro h
      subst h
      have hlv := congrArg List.length hv
      simp at hlv hlt
      omega
    obtain ⟨d, v', rfl⟩ := List.exists_cons_of_ne_nil hvne
    rw [sepLine] at hv
    simp only [List.cons_append] at hv
    rw [List.cons.injEq] at hv
    obtain ⟨-, hv'⟩ := hv
    have h1 : (v' ++ '\n' :: e :: u'').dropLast = S := by
      rw [hv', List.dropLast_concat]
    have h2 : (v' ++ '\n' :: e :: u'').dropLast
        = v' ++ ('\n' :: e :: u'').dropLast := by
      rw [List.dropLast_append]
      simp
    have h3 : ('\n' :: e :: u'').dropLast = '\n' :: (e :: u'').dropLast := rfl
    apply hnl
    rw [← h1, h2, h3]
    exact List.mem_append_right _ (List.mem_cons_self _ _)

theorem sepLine_no_cross (S p z : List Char) (hnl : '\n' ∉ S)
    (hp : ¬ S <:+: p) :
    ∀ t, t ≠ [] → t <:+ p → ¬ sepLine S <+: t ++ sepLine S ++ z := by
  intro t htne hts h
  have htp : t <+: t ++ sepLine S ++ z := by
    rw [List.append_assoc]
    exact List.prefix_append t (sepLine S ++ z)
  rcases le_or_lt (sepLine S).length t.length with hle | hlt
  · have h1 : sepLine S <+: t :=
      List.prefix_of_prefix_length_le h htp hle
    have h1' : sepLine S <:+: t := List.IsPrefix.isInfix h1
    have hts' : t <:+: p := List.IsSuffix.isInfix hts
    exact hp ((sepLine_contains S).trans (h1'.trans hts'))
  · have ht : t <+: sepLine S :=
      List.prefix_of_prefix_length_le htp h (Nat.le_of_lt hlt)
    obtain ⟨u, hu⟩ := ht
    have hulen : t.length + u.length = (sepLine S).length := by
      have hul := congrArg List.length hu
      simpa using hul
    have hune : u ≠ [] := by
      intro h0
      subst h0
      simp at hulen
      omega
    have hupre : u <+: sepLine S ++ z := by
      have h' := h
      rw [List.append_assoc] at h'
      obtain ⟨w, hw⟩ := h'
      nth_rewrite 1 [← hu] at hw
      rw [List.append_assoc] at hw
      exact ⟨w, List.append_cancel_left hw⟩
    have hsz : sepLine S <+: sepLine S ++ z := List.prefix_append _ z
    have hupre' : u <+: sepLine S :=
      List.prefix_of_prefix_length_le hupre hsz (by omega)
    have husuf : u <:+ sepLine S := ⟨t, hu⟩
    have htpos : 0 < t.length := List.length_pos.mpr htne
    have hu1 : u = ['\n'] :=
      sepLine_border S hnl u hupre' husuf hune (by omega)
    have heq : t ++ ['\n'] = ('\n' :: S) ++ ['\n'] := by
      rw [hu1] at hu
      rw [hu, sepLine]
    have ht1 : t = '\n' :: S := List.append_cancel_right heq
    obtain ⟨w, hw⟩ := hts
    apply hp
    refine ⟨w ++ ['\n'], [], ?_⟩
    rw [ht1] at hw
    simpa [List.append_assoc] using hw

/-! ### Round trip of join and split -/

theorem pySplit_pyJoin (S : List Char) (hnl : '\n' ∉ S) :
    ∀ P, P ≠ [] → (∀ p ∈ P, ¬ S <:+: p) →
      pySplit (sepLine S) (pyJoin (sepLine S) P) = P := by
  intro P
  induction P with
  | nil => intro h _; exact absurd rfl h
  | cons p ps ih =>
    intro _ hsub
    cases ps with
    | nil =>
      have hocc : ¬ sepLine S <:+: p := by
        intro h
        exact hsub p (by simp) ((sepLine_contains S).trans h)
      exact pySplitGo_of_no_occ (sepLine S) p.length p (le_refl _) hocc
    | cons q ps' =>
      have hjoin : pyJoin (sepLine S) (p :: q :: ps')
          = p ++ sepLine S ++ pyJoin (sepLine S) (q :: ps') := rfl
      have hstep := pySplitGo_append (sepLine S) (sepLine_ne_nil S)
        (pyJoin (sepLine S) (q :: ps')) p
        ((p ++ sepLine S ++ pyJoin (sepLine S) (q :: ps')).length)
        (le_refl _)
        (sepLine_no_cross S p (pyJoin (sepLine S) (q :: ps')) hnl
          (hsub p (by simp)))
      have hrec : pySplit (sepLine S) (pyJoin (sepLine S) (q :: ps'))
          = q :: ps' :=
        ih (by simp) (fun r hr => hsub r (by simp [hr]))
      calc pySplit (sepLine S) (pyJoin (sepLine S) (p :: q :: ps'))
          = pySplitGo (sepLine S)
              ((p ++ sepLine S ++ pyJoin (sepLine S) (q :: ps')).length)
              (p ++ sepLine S ++ pyJoin (sepLine S) (q :: ps')) := by
            rw [hjoin]; rfl
        _ = p :: pySplit (sepLine S) (pyJoin (sepLine S) (q :: ps')) := hstep
        _ = p :: q :: ps' := by rw [hrec]

theorem pyJoin_concat (sep : List Char) :
    ∀ P r, ∃ w, pyJoin sep (P ++ [r]) = w ++ r := by
  intro P
  induction P with
  | nil => intro r; exact ⟨[], rfl⟩
  | cons p P' ih =>
    intro r
    cases P' with
    | nil => exact ⟨p ++ sep, by simp [pyJoin]⟩
    | cons q P'' =>
      obtain ⟨w, hw⟩ := ih r
      refine ⟨p ++ sep ++ w, ?_⟩
      have h1 : (p :: q :: P'') ++ [r] = p :: q :: (P'' ++ [r]) := by simp
      rw [h1]
      have h2 : pyJoin sep (p :: q :: (P'' ++ [r]))
          = p ++ sep ++ pyJoin sep (q :: (P'' ++ [r])) := rfl
      rw [h2]
      have hw' : pyJoin sep (q :: (P'' ++ [r])) = w ++ r := by
        have h3 : q :: (P'' ++ [r]) = (q :: P'') ++ [r] := by simp
        rw [h3, hw]
      rw [hw']
      simp [List.append_assoc]

theorem pyRstrip_concat_not_mem (chars x : List Char) (c : Char)
    (hc : c ∉ chars) :
    pyRstrip chars (x ++ [c]) = x ++ [c] := by
  simp [pyRstrip, List.dropWhile_cons, hc]

/-! ### Claim C1: the round-trip law -/

/-- C1, counterexample: with separator `"---"` and the single page `"a\n"`
(the separator does not occur in any page), the round trip loses the page's
trailing newline, because `importbook`'s `rstrip` removes trailing
characters drawn from the character set of `"\n---\n"`. -/
theorem c1_counterexample :
    ¬ (['-', '-', '-'] <:+: ['a', '\n']) ∧
      importPages ['-', '-', '-']
          (exportPages ['-', '-', '-'] [['a', '\n']])
        ≠ [['a', '\n']] := by
  decide

/-- C1, amended: the round trip `import(export(P, S), S) = P` holds for
every nonempty sequence of pages `P` and separator `S`, provided that `S`
contains no newline, `S` does not occur as a substring of any page, and
the final page is nonempty and ends in a character that is neither a
newline nor a character of `S` (so that the trailing character-set strip
removes nothing). -/
theorem c1_roundtrip_amended (S : List Char) (P' : List (List Char))
    (q : List Char) (c : Char) (hnl : '\n' ∉ S) (hcnl : c ≠ '\n')
    (hcS : c ∉ S) (hsub : ∀ p ∈ P' ++ [q ++ [c]], ¬ S <:+: p) :
    importPages S (exportPages S (P' ++ [q ++ [c]])) = P' ++ [q ++ [c]] := by
  have hcmem : c ∉ sepLine S := by
    simp [sepLine]
    exact ⟨hcnl, fun h => absurd h hcS, hcnl⟩
  obtain ⟨w, hw⟩ := pyJoin_concat (sepLine S) P' (q ++ [c])
  have hstrip : pyRstrip (sepLine S) (pyJoin (sepLine S) (P' ++ [q ++ [c]]))
      = pyJoin (sepLine S) (P' ++ [q ++ [c]]) := by
    rw [hw]
    have hsh : w ++ (q ++ [c]) = (w ++ q) ++ [c] := by
      simp [List.append_assoc]
    rw [hsh, pyRstrip_concat_not_mem _ _ _ hcmem]
  show pySplit (sepLine S)
      (pyRstrip (sepLine S)
        ((pyJoin (sepLine S) (P' ++ [q ++ [c]]) ++ ['\n']).dropLast))
      = P' ++ [q ++ [c]]
  rw [List.dropLast_concat, hstrip]
  exact pySplit_pyJoin S hnl (P' ++ [q ++ [c]]) (by simp) hsub

/-- Witness for the amended C1 at `P = ["a"]`, `S = "---"`. -/
theorem c1_roundtrip_amended_witness :
    importPages ['-', '-', '-'] (exportPages ['-', '-', '-'] [['a']])
      = [['a']] := by
  have h := c1_roundtrip_amended ['-', '-', '-'] [] [] 'a'
    (by decide) (by decide) (by decide) (by decide)
  simpa using h

/-! ### Claim C2: the steps of the import direction -/

/-- C2, counterexample: on raw input `"a\n\n"` with separator `"---"`, the
code's import yields `["a"]` (the character-set `rstrip` eats the leftover
newline), while the claimed steps (drop final character, strip leading or
trailing occurrences of the framing string `"\n---\n"`, split) yield
`["a\n"]`. -/
theorem c2_counterexample :
    importPages ['-', '-', '-'] ['a', '\n', '\n']
      ≠ importPagesLit ['-', '-', '-'] ['a', '\n', '\n'] := by
  decide

theorem stripTrailRun_concat (chars x : List Char) (c : Char) :
    stripTrailRun chars (x ++ [c]) =
      if c ∈ chars then stripTrailRun chars x else x ++ [c] := by
  induction x with
  | nil =>
    by_cases h : c ∈ chars
    · simp [stripTrailRun, h]
    · simp [stripTrailRun, h]
  | cons a x' ih =>
    by_cases h : c ∈ chars
    · rw [if_pos h]
      rw [List.cons_append]
      show (if stripTrailRun chars (x' ++ [c]) = [] ∧ a ∈ chars then []
          else a :: stripTrailRun chars (x' ++ [c]))
        = stripTrailRun chars (a :: x')
      rw [ih, if_pos h]
      rfl
    · rw [if_neg h]
      rw [List.cons_append]
      show (if stripTrailRun chars (x' ++ [c]) = [] ∧ a ∈ chars then []
          else a :: stripTrailRun chars (x' ++ [c]))
        = (a :: x') ++ [c]
      rw [ih, if_neg h]
      have hne : ¬ (x' ++ [c] = [] ∧ a ∈ chars) := by
        rintro ⟨h1, -⟩
        simp at h1
      rw [if_neg hne]
      rfl

theorem pyRstrip_eq_stripTrailRun (chars s : List Char) :
    pyRstrip chars s = stripTrailRun chars s := by
  induction s using List.reverseRecOn with
  | nil => rfl
  | append_singleton x c ih =>
    rw [stripTrailRun_concat]
    by_cases h : c ∈ chars
    · rw [if_pos h, ← ih]
      simp [pyRstrip, List.dropWhile_cons, h]
    · rw [if_neg h]
      exact pyRstrip_concat_not_mem chars x c h

/-- C2, amended: the import direction drops exactly the final character,
then removes the longest trailing run of characters drawn from the
character set of the separator-with-newlines string (Python's `rstrip`
set semantics; no leading strip happens), then splits on the
separator-with-newlines delimiter. -/
theorem c2_import_steps_amended (separator text : List Char) :
    importPages separator text = importPagesAmended separator text := by
  show pySplit (sepLine separator)
      (pyRstrip (sepLine separator) text.dropLast)
    = pySplit (sepLine separator)
      (stripTrailRun (sepLine separator) text.dropLast)
  rw [pyRstrip_eq_stripTrailRun]

/-! ### Helper lemmas on the inventory model -/

theorem modifyAt_get {α : Type} (f : α → α) :
    ∀ (l : List α) (i : Nat), (modifyAt i f l)[i]? = Option.map f l[i]? := by
  intro l
  induction l with
  | nil => intro i; simp [modifyAt]
  | cons x rest ih =>
    intro i
    cases i with
    | zero => simp [modifyAt]
    | succ j => simpa [modifyAt] using ih j

theorem modifyAt_map {α β : Type} (g : α → β) (f : α → α)
    (hf : ∀ x, g (f x) = g x) :
    ∀ (l : List α) (i : Nat), (modifyAt i f l).map g = l.map g := by
  intro l
  induction l with
  | nil => intro i; simp [modifyAt]
  | cons x rest ih =>
    intro i
    cases i with
    | zero => simp [modifyAt, hf]
    | succ j => simp [modifyAt, ih j]

theorem modifyAt_eq_self {α : Type} (f : α → α) :
    ∀ (l : List α) (i : Nat) (x : α), l[i]? = some x → f x = x →
      modifyAt i f l = l := by
  intro l
  induction l with
  | nil => intro i x h _; simp at h
  | cons y rest ih =>
    intro i x h hfx
    cases i with
    | zero =>
      simp at h
      subst h
      simp [modifyAt, hfx]
    | succ j =>
      simp at h
      simp [modifyAt, ih j x h hfx]

theorem tagDefault_of_some (it : Item) (t : List (List Char))
    (h : it.tag = some t) : tagDefault it = it := by
  cases it
  simp only [tagDefault]
  simp at h
  simp [h]

theorem get_bookpages_of_findBook (inv : List Item) (i : Nat)
    (h : findBook inv = some i) :
    get_bookpages inv = Except.ok (modifyAt i tagDefault inv, i) := by
  unfold get_bookpages
  rw [h]

theorem get_bookpages_ok_shape (inv inv1 : List Item) (i : Nat)
    (h : get_bookpages inv = Except.ok (inv1, i)) :
    findBook inv = some i ∧ inv1 = modifyAt i tagDefault inv := by
  unfold get_bookpages at h
  cases hfb : findBook inv with
  | none => rw [hfb] at h; simp at h
  | some i' =>
    rw [hfb] at h
    cases h
    exact ⟨rfl, rfl⟩

theorem findBook_eq_none (inv : List Item) :
    findBook inv = none ↔ ∀ it ∈ inv, isBook it = false := by
  induction inv with
  | nil => simp [findBook]
  | cons it rest ih =>
    by_cases h : isBook it
    · simp [findBook, h]
    · simp [findBook, h, ih]

theorem findBook_spec (inv : List Item) :
    ∀ i, findBook inv = some i →
      ∃ it, inv[i]? = some it ∧ isBook it = true ∧
        ∀ j, j < i → ∀ it', inv[j]? = some it' → isBook it' = false := by
  induction inv with
  | nil => intro i h; simp [findBook] at h
  | cons b rest ih =>
    intro i h
    by_cases hb : isBook b
    · rw [findBook, if_pos hb] at h
      have h0 : i = 0 := by simpa using h.symm
      subst h0
      refine ⟨b, by simp, hb, ?_⟩
      intro j hj it' h'
      omega
    · rw [findBook, if_neg hb] at h
      obtain ⟨i', hi', rfl⟩ := Option.map_eq_some'.mp h
      obtain ⟨it, hit, hbook, hmin⟩ := ih i' hi'
      refine ⟨it, by simpa using hit, hbook, ?_⟩
      intro j hj it' h'
      cases j with
      | zero =>
        have hb' : it' = b := by
          have hx := h'
          simp at hx
          exact hx.symm
        rw [hb']
        simpa using hb
      | succ j' =>
        exact hmin j' (by omega) it' (by simpa using h')

theorem isBook_iff (it : Item) :
    isBook it = true
      ↔ (it.id = ItemId.short 386 ∨ it.id = ItemId.str bookIdStr) := by
  cases hid : it.id with
  | short n => simp [isBook, hid]
  | str s => simp [isBook, hid]

/-! ### Helper lemmas on the slot allocator -/

theorem bne_symm_int (a b : Int) : (a != b) = (b != a) := by
  by_cases h : a = b
  · simp [h]
  · simp [bne, h, Ne.symm h]

theorem allSlots_nodup : allSlots.Nodup := by
  unfold allSlots
  exact List.Nodup.map (fun a b hab => Int.ofNat_inj.mp hab)
    (List.nodup_range 36)

theorem allSlots_sorted : List.Pairwise (· < ·) allSlots := by
  unfold allSlots
  rw [List.pairwise_map]
  exact List.Pairwise.imp (fun h => Int.ofNat_lt.mpr h)
    (List.pairwise_lt_range 36)

theorem foldl_eraseSlot (items : List Item) :
    ∀ L : List Int, L.Nodup →
      items.foldl eraseSlot L
        = L.filter (fun s => items.all (fun it => it.slot != s)) := by
  induction items with
  | nil =>
    intro L _
    simp
  | cons it rest ih =>
    intro L hL
    rw [List.foldl_cons]
    have hstep : eraseSlot L it = L.filter (fun s => s != it.slot) := by
      unfold eraseSlot
      by_cases hm : it.slot ∈ L
      · rw [if_pos hm]
        exact List.Nodup.erase_eq_filter hL it.slot
      · rw [if_neg hm]
        symm
        apply List.filter_eq_self.mpr
        intro s hs
        have hne : s ≠ it.slot := fun e => hm (e ▸ hs)
        simpa using hne
    rw [hstep, ih _ (hL.filter _), List.filter_filter]
    apply List.filter_congr
    intro s hs
    rw [List.all_cons]
    rw [bne_symm_int it.slot s]
    exact Bool.and_comm _ _

theorem free_slots_eq (inv : List Item) (h : inv.length ≠ 40) :
    free_slots inv = spec_free_slots inv := by
  unfold free_slots spec_free_slots
  rw [if_neg h]
  exact foldl_eraseSlot inv allSlots allSlots_nodup

theorem free_slots_head (inv : List Item) (s : Int) (rest : List Int)
    (h : free_slots inv = s :: rest) : ∀ it ∈ inv, it.slot ≠ s := by
  by_cases h40 : inv.length = 40
  · unfold free_slots at h
    rw [if_pos h40] at h
    simp at h
  · rw [free_slots_eq inv h40] at h
    have hs : s ∈ spec_free_slots inv := by rw [h]; simp
    unfold spec_free_slots at hs
    have hall := List.of_mem_filter hs
    intro it hit
    have hb := List.all_eq_true.mp hall it hit
    simpa using hb

theorem nodup_concat_slot (slots : List Int) (s : Int)
    (hn : slots.Nodup) (hs : s ∉ slots) : (slots ++ [s]).Nodup := by
  rw [List.nodup_append]
  refine ⟨hn, List.nodup_singleton s, ?_⟩
  intro a ha hmem
  simp at hmem
  subst hmem
  exact hs ha

theorem new_book_none_shape (worldNew : Bool) (inv : List Item) :
    (free_slots inv = [] ∧
      new_book worldNew (some inv) none
        = (some inv,
           Except.error "No empty slot in inventory to create a new book!"))
    ∨ (∃ s rest, free_slots inv = s :: rest ∧
        new_book worldNew (some inv) none
          = (some (inv ++ [mkBook worldNew s]),
             Except.ok (mkBook worldNew s))) := by
  cases hf : free_slots inv with
  | nil => exact Or.inl ⟨rfl, by simp [new_book, hf]⟩
  | cons s rest =>
    exact Or.inr ⟨s, rest, rfl, by simp [new_book, hf, pushBook]⟩

/-! ### Claim C3: export performs no mutation -/

/-- C3, counterexample: exporting an inventory whose book has no tag
payload succeeds but mutates the inventory — the lookup's `setdefault`
gives the book the default one-empty-page tag. -/
theorem c3_counterexample :
    exportbook ['-', '-', '-'] [bTagless]
        = Except.ok ([bDefaulted], ['\n']) ∧
      [bDefaulted] ≠ [bTagless] := by
  constructor
  · rfl
  · decide

/-- C3, amended: a successful export leaves the inventory unchanged except
that, when the located book item has no tag payload, that single item gains
the default one-empty-page tag; in particular, when the located book
already has a tag, the inventory, its items and their tags are exactly as
before. -/
theorem c3_export_frame_amended (separator : List Char)
    (inv inv1 : List Item) (blob : List Char)
    (h : exportbook separator inv = Except.ok (inv1, blob)) :
    ∃ i, findBook inv = some i ∧ inv1 = modifyAt i tagDefault inv ∧
      ((∃ it t, inv[i]? = some it ∧ it.tag = some t) → inv1 = inv) := by
  unfold exportbook at h
  cases hgb : get_bookpages inv with
  | error e => rw [hgb] at h; simp at h
  | ok pr =>
    obtain ⟨inv1', i⟩ := pr
    rw [hgb] at h
    simp at h
    obtain ⟨hfb, hshape⟩ := get_bookpages_ok_shape inv inv1' i hgb
    refine ⟨i, hfb, by rw [← h.1, hshape], ?_⟩
    rintro ⟨it, t, hit, htag⟩
    rw [← h.1, hshape]
    exact modifyAt_eq_self tagDefault inv i it hit
      (tagDefault_of_some it t htag)

/-- Witness for the amended C3: exporting a tagged book changes nothing. -/
theorem c3_export_frame_amended_witness :
    ∃ i, findBook [bTagged] = some i ∧
      [bTagged] = modifyAt i tagDefault [bTagged] ∧
      ((∃ it t, [bTagged][i]? = some it ∧ it.tag = some t) →
        [bTagged] = [bTagged]) :=
  c3_export_frame_amended ['-', '-', '-'] [bTagged] [bTagged]
    ['h', 'i', '\n'] rfl

/-! ### Claim C4: persistence is gated on the apply flag -/

/-- C4: whenever the import pipeline reaches the page-rewriting stage (it
returns a rewritten inventory), the external save operation is invoked
exactly once when the apply flag is set and never when it is unset. -/
theorem c4_save_gate (separator text : List Char)
    (append create save worldNew : Bool) (inv inv' : List Item) (n : Nat)
    (h : importbook separator text append create save worldNew inv
      = Except.ok (inv', n)) :
    (save = true → n = 1) ∧ (save = false → n = 0) := by
  have hn : n = if save then 1 else 0 := by
    cases hgb : get_bookpages inv with
    | ok pr =>
      simp [importbook, hgb] at h
      exact h.2.symm
    | error e =>
      by_cases hc : create
      · cases hnb : new_book worldNew (some inv) none with
        | mk invOpt bres =>
          cases bres with
          | ok bk =>
            simp [importbook, hgb, hc, hnb] at h
            exact h.2.symm
          | error e2 => simp [importbook, hgb, hc, hnb] at h
      · simp [importbook, hgb, hc] at h
  constructor
  · intro hs; rw [hn, hs]; rfl
  · intro hs; rw [hn, hs]; rfl

/-- Witness for C4 at a concrete import that reaches the rewrite stage. -/
theorem c4_save_gate_witness :
    (true = true → 1 = 1) ∧ (true = false → 1 = 0) :=
  c4_save_gate ['-', '-', '-'] ['C', '\n'] true true true false
    [bTagged]
    (modifyAt 0 (setPages true (importPages ['-', '-', '-'] ['C', '\n']))
      (modifyAt 0 tagDefault [bTagged])) 1 rfl

/-! ### Claim C5: replace versus append -/

/-- C5: when the inventory holds a book with pages `old`, importing text
with `append = false` leaves the book's pages exactly the parsed pages,
and with `append = true` leaves `old` followed by the parsed pages. -/
theorem c5_replace_append (separator text : List Char)
    (append create save worldNew : Bool) (inv : List Item) (i : Nat)
    (it : Item) (old : List (List Char))
    (hfind : findBook inv = some i) (hget : inv[i]? = some it)
    (htag : it.tag = some old) :
    ∃ inv' n,
      importbook separator text append create save worldNew inv
        = Except.ok (inv', n) ∧
      tagAt inv' i
        = some ((if append then old else [])
            ++ importPages separator text) := by
  have hgb := get_bookpages_of_findBook inv i hfind
  refine ⟨modifyAt i (setPages append (importPages separator text))
      (modifyAt i tagDefault inv), if save then 1 else 0, ?_, ?_⟩
  · simp [importbook, hgb]
  · unfold tagAt
    rw [modifyAt_get, modifyAt_get, hget]
    cases append <;> simp [tagDefault, setPages, htag]

/-- Witness for C5: appending `["C"]` to pages `["hi"]`. -/
theorem c5_replace_append_witness :
    ∃ inv' n,
      importbook ['-', '-', '-'] ['C', '\n'] true true false false [bTagged]
        = Except.ok (inv', n) ∧
      tagAt inv' 0
        = some ((if true then [['h', 'i']] else [])
            ++ importPages ['-', '-', '-'] ['C', '\n']) :=
  c5_replace_append ['-', '-', '-'] ['C', '\n'] true true false false
    [bTagged] 0 bTagged [['h', 'i']] rfl rfl rfl

/-! ### Claim C6: the item locator -/

/-- C6: the lookup accepts the legacy numeric identifier and the
namespaced string identifier interchangeably, returns the first matching
item in iteration order, and signals "book not found" exactly when no item
matches under either encoding. -/
theorem c6_item_locator (inv : List Item) :
    (get_bookpages inv = Except.error "No book found in inventory"
      ↔ ∀ it ∈ inv,
          ¬ (it.id = ItemId.short 386 ∨ it.id = ItemId.str bookIdStr))
    ∧ (∀ inv1 i, get_bookpages inv = Except.ok (inv1, i) →
        ∃ it, inv[i]? = some it
          ∧ (it.id = ItemId.short 386 ∨ it.id = ItemId.str bookIdStr)
          ∧ ∀ j, j < i → ∀ it', inv[j]? = some it' →
              ¬ (it'.id = ItemId.short 386
                  ∨ it'.id = ItemId.str bookIdStr)) := by
  constructor
  · constructor
    · intro h it hit hor
      have hfb : findBook inv = none := by
        cases hfb' : findBook inv with
        | none => rfl
        | some i =>
          rw [get_bookpages_of_findBook inv i hfb'] at h
          simp at h
      have hfalse := (findBook_eq_none inv).mp hfb it hit
      have htrue := (isBook_iff it).mpr hor
      rw [htrue] at hfalse
      simp at hfalse
    · intro hall
      have hfb : findBook inv = none := by
        apply (findBook_eq_none inv).mpr
        intro it hit
        cases hbi : isBook it
        · rfl
        · exact absurd ((isBook_iff it).mp hbi) (hall it hit)
      unfold get_bookpages
      rw [hfb]
  · intro inv1 i h
    obtain ⟨hfb, -⟩ := get_bookpages_ok_shape inv inv1 i h
    obtain ⟨it, hit, hbook, hmin⟩ := findBook_spec inv i hfb
    refine ⟨it, hit, (isBook_iff it).mp hbook, ?_⟩
    intro j hj it' h' hor
    have hb := hmin j hj it' h'
    have htrue := (isBook_iff it').mpr hor
    rw [htrue] at hb
    simp at hb

/-- Witness for C6: a numeric-id book is found first in a mixed inventory,
and an inventory with no matching item signals the lookup error. -/
theorem c6_item_locator_witness :
    (∃ it, [bOther, bTagged, bNamespaced][1]? = some it
      ∧ (it.id = ItemId.short 386 ∨ it.id = ItemId.str bookIdStr)
      ∧ ∀ j, j < 1 → ∀ it', [bOther, bTagged, bNamespaced][j]? = some it' →
          ¬ (it'.id = ItemId.short 386
              ∨ it'.id = ItemId.str bookIdStr)) ∧
    get_bookpages [bOther] = Except.error "No book found in inventory" :=
  ⟨(c6_item_locator [bOther, bTagged, bNamespaced]).2
      (modifyAt 1 tagDefault [bOther, bTagged, bNamespaced]) 1 rfl,
    (c6_item_locator [bOther]).1.mpr (by decide)⟩

/-! ### Claim C7: the default tag of a never-written book -/

/-- C7: a successful lookup of a tagless book synthesizes a tag whose
pages are exactly one empty page, and exporting that book afterwards
yields exactly the single newline, whatever the separator. -/
theorem c7_default_tag (separator : List Char) (inv : List Item) (i : Nat)
    (it : Item) (hfind : findBook inv = some i) (hget : inv[i]? = some it)
    (hnone : it.tag = none) :
    ∃ inv1, get_bookpages inv = Except.ok (inv1, i)
      ∧ tagAt inv1 i = some [[]]
      ∧ exportbook separator inv = Except.ok (inv1, ['\n']) := by
  have hgb := get_bookpages_of_findBook inv i hfind
  refine ⟨modifyAt i tagDefault inv, hgb, ?_, ?_⟩
  · unfold tagAt
    rw [modifyAt_get, hget]
    simp [tagDefault, hnone, new_booktag]
  · have hpg : pagesAt (modifyAt i tagDefault inv) i = [[]] := by
      unfold pagesAt
      rw [modifyAt_get, hget]
      simp [tagDefault, hnone, new_booktag]
    simp [exportbook, hgb, hpg, exportPages, pyJoin]

/-- Witness for C7 on a one-item inventory holding a tagless book. -/
theorem c7_default_tag_witness :
    ∃ inv1, get_bookpages [bTagless] = Except.ok (inv1, 0)
      ∧ tagAt inv1 0 = some [[]]
      ∧ exportbook ['-', '-', '-'] [bTagless] = Except.ok (inv1, ['\n']) :=
  c7_default_tag ['-', '-', '-'] [bTagless] 0 bTagless rfl rfl rfl

/-! ### Claim C8: creation fails without mutation on a full inventory -/

/-- C8: when every main slot 0..35 is occupied, `new_book` with no
explicit slot signals "no free slot" and performs no mutation — the
inventory is returned exactly as it was and no book is produced. -/
theorem c8_full_inventory (worldNew : Bool) (inv : List Item)
    (hfull : ∀ s : Nat, s < 36 → ∃ it ∈ inv, it.slot = Int.ofNat s) :
    new_book worldNew (some inv) none
      = (some inv,
         Except.error "No empty slot in inventory to create a new book!") := by
  have hfree : free_slots inv = [] := by
    by_cases h40 : inv.length = 40
    · unfold free_slots
      rw [if_pos h40]
    · rw [free_slots_eq inv h40]
      unfold spec_free_slots
      rw [List.filter_eq_nil_iff]
      intro s hs
      unfold allSlots at hs
      obtain ⟨k, hk, rfl⟩ := List.mem_map.mp hs
      obtain ⟨it, hit, hslot⟩ := hfull k (List.mem_range.mp hk)
      intro hall
      have hb := List.all_eq_true.mp hall it hit
      rw [hslot] at hb
      simp at hb
  simp [new_book, hfree]

/-- Witness for C8 on a 36-item inventory occupying all of 0..35. -/
theorem c8_full_inventory_witness :
    new_book false (some inv36) none
      = (some inv36,
         Except.error "No empty slot in inventory to create a new book!") :=
  c8_full_inventory false inv36 (by decide)

/-! ### Claim C9: the free-slot computation -/

/-- C9, counterexample: on forty items all carrying slot value 0 the code
returns `[]` (the full-inventory shortcut), not the ascending list of
slot values in 0..35 left unoccupied. -/
theorem c9_counterexample :
    free_slots inv40same ≠ spec_free_slots inv40same := by
  decide

/-- C9, amended: for an inventory of any size other than forty,
`free_slots` returns the ascending list of slot values in the closed
range [0, 35] not occupied by any item; an inventory of exactly forty
items yields `[]` regardless of its slot values; and the result is always
strictly ascending. -/
theorem c9_free_slots_amended (inv : List Item) :
    (inv.length = 40 → free_slots inv = [])
    ∧ (inv.length ≠ 40 → free_slots inv = spec_free_slots inv)
    ∧ List.Pairwise (· < ·) (free_slots inv) := by
  refine ⟨?_, ?_, ?_⟩
  · intro h40
    unfold free_slots
    rw [if_pos h40]
  · exact free_slots_eq inv
  · by_cases h40 : inv.length = 40
    · unfold free_slots
      rw [if_pos h40]
      exact List.Pairwise.nil
    · rw [free_slots_eq inv h40]
      exact List.Pairwise.sublist (List.filter_sublist allSlots)
        allSlots_sorted

/-- Witness for the amended C9: occupying exactly slots 0,1,2 leaves the
ascending list 3..35. -/
theorem c9_free_slots_amended_witness :
    free_slots inv3 = allSlots.drop 3 :=
  ((c9_free_slots_amended inv3).2.1 (by decide)).trans (by decide)

/-! ### Claim C10: at most one occupant per slot value -/

/-- C10, counterexample: creating a book with an explicit, already
occupied slot duplicates that slot value, breaking the invariant even
though the input inventory satisfied it. -/
theorem c10_counterexample :
    ([bTagless].map Item.slot).Nodup ∧
      ¬ ((((new_book false (some [bTagless]) (some 0)).1.getD []).map
          Item.slot).Nodup) := by
  decide

/-- C10, amended: lookup, creation without an explicit slot, creation
with an explicit slot that is not already occupied, and the import
pipeline all preserve the at-most-one-item-per-slot-value invariant; the
unguarded explicit-slot creation is the one operation that can break
it. -/
theorem c10_slot_invariant_amended (inv : List Item)
    (hinv : (inv.map Item.slot).Nodup) :
    (∀ inv1 i, get_bookpages inv = Except.ok (inv1, i) →
      (inv1.map Item.slot).Nodup)
    ∧ (∀ worldNew inv2,
        (new_book worldNew (some inv) none).1 = some inv2 →
        (inv2.map Item.slot).Nodup)
    ∧ (∀ worldNew s inv2, (∀ it ∈ inv, it.slot ≠ s) →
        (new_book worldNew (some inv) (some s)).1 = some inv2 →
        (inv2.map Item.slot).Nodup)
    ∧ (∀ separator text append create save worldNew inv' n,
        importbook separator text append create save worldNew inv
          = Except.ok (inv', n) →
        (inv'.map Item.slot).Nodup) := by
  have hfreshNodup : ∀ (b : Item), b.slot ∉ inv.map Item.slot →
      ((inv ++ [b]).map Item.slot).Nodup := by
    intro b hb
    rw [List.map_append]
    exact nodup_concat_slot (inv.map Item.slot) b.slot hinv hb
  refine ⟨?_, ?_, ?_, ?_⟩
  · intro inv1 i h
    obtain ⟨-, hshape⟩ := get_bookpages_ok_shape inv inv1 i h
    rw [hshape, modifyAt_map Item.slot tagDefault (fun x => rfl)]
    exact hinv
  · intro worldNew inv2 h
    rcases new_book_none_shape worldNew inv with ⟨-, hnb⟩ | ⟨s, rest, hf, hnb⟩
    · rw [hnb] at h
      simp at h
      rw [← h]
      exact hinv
    · rw [hnb] at h
      simp at h
      rw [← h]
      apply hfreshNodup
      have hns : ∀ it ∈ inv, it.slot ≠ s := free_slots_head inv s rest hf
      intro hmem
      obtain ⟨it, hit, hslot⟩ := List.mem_map.mp hmem
      exact hns it hit hslot
  · intro worldNew s inv2 hfree h
    have hnb : new_book worldNew (some inv) (some s)
        = (some (inv ++ [mkBook worldNew s]), Except.ok (mkBook worldNew s)) := by
      simp [new_book, pushBook]
    rw [hnb] at h
    simp at h
    rw [← h]
    apply hfreshNodup
    intro hmem
    obtain ⟨it, hit, hslot⟩ := List.mem_map.mp hmem
    exact hfree it hit hslot
  · intro separator text append create save worldNew inv' n h
    cases hgb : get_bookpages inv with
    | ok pr =>
      obtain ⟨inv1, i⟩ := pr
      obtain ⟨-, hshape⟩ := get_bookpages_ok_shape inv inv1 i hgb
      simp [importbook, hgb] at h
      rw [← h.1,
        modifyAt_map Item.slot (setPages append (importPages separator text))
          (fun x => rfl),
        hshape, modifyAt_map Item.slot tagDefault (fun x => rfl)]
      exact hinv
    | error e =>
      by_cases hc : create
      · rcases new_book_none_shape worldNew inv
          with ⟨-, hnb⟩ | ⟨s, rest, hf, hnb⟩
        · simp [importbook, hgb, hc, hnb] at h
        · simp [importbook, hgb, hc, hnb] at h
          rw [← h.1,
            modifyAt_map Item.slot
              (setPages append (importPages separator text)) (fun x => rfl)]
          apply hfreshNodup
          have hns : ∀ it ∈ inv, it.slot ≠ s := free_slots_head inv s rest hf
          intro hmem
          obtain ⟨it, hit, hslot⟩ := List.mem_map.mp hmem
          exact hns it hit hslot
      · simp [importbook, hgb, hc] at h

/-- Witness for the amended C10: the import pipeline on a one-book
inventory keeps the slot values duplicate-free. -/
theorem c10_slot_invariant_amended_witness :
    ((modifyAt 0 (setPages true (importPages ['-', '-', '-'] ['C', '\n']))
        (modifyAt 0 tagDefault [bTagged])).map Item.slot).Nodup :=
  (c10_slot_invariant_amended [bTagged] (by decide)).2.2.2
    ['-', '-', '-'] ['C', '\n'] true true false false
    (modifyAt 0 (setPages true (importPages ['-', '-', '-'] ['C', '\n']))
      (modifyAt 0 tagDefault [bTagged])) 0 rfl

end BookEditor
